import Mathlib

/-!
Verification of the Delta-E sanity-check analysis of
`Argyll_Printer_Profiler.py` (function `sanity_check`): the report parser
that extracts ΔE values from `profcheck` output, the distribution
summarizer (range, percentiles by ceiling rank, threshold counts), and the
one-decimal percentage rendering.

Numbers are modelled as exact rationals (`ℚ`) standing for Python floats;
the parsed decimals, comparisons and index arithmetic involved are exact
in both representations for the inputs considered.
-/

namespace ArgyllProfiler

/-- Python `str.strip()` whitespace set (ASCII part). -/
def pyWhitespace (c : Char) : Bool :=
  c = ' ' || c = '\t' || c = '\n' || c = '\r' || c = Char.ofNat 11 || c = Char.ofNat 12

/-- Python `line.strip()`: drop whitespace from both ends. -/
def pyStrip (cs : List Char) : List Char :=
  ((cs.dropWhile pyWhitespace).reverse.dropWhile pyWhitespace).reverse

/-- Numeric value of a list of decimal digit characters (most significant first). -/
def digitsVal (ds : List Char) : ℕ :=
  ds.foldl (fun a c => 10 * a + (c.toNat - 48)) 0

/-- The regex `^\[([0-9]+\.[0-9]+)\].*@` applied (via `re.search`) to a
stripped line, returning `float(m.group(1))` on a match.  The anchored
pattern is deterministic: each `[0-9]+` must take the maximal digit run
(backtracking to a shorter run leaves a digit where `\.` or `\]` is
required), and `.*@` succeeds exactly when an `@` occurs after the
closing bracket (lines contain no newline). -/
def matchDeltaE (cs : List Char) : Option ℚ :=
  match cs with
  | '[' :: rest =>
    if rest.takeWhile Char.isDigit = [] then none
    else
      match rest.dropWhile Char.isDigit with
      | '.' :: r2 =>
        if r2.takeWhile Char.isDigit = [] then none
        else
          match r2.dropWhile Char.isDigit with
          | ']' :: r4 =>
            if '@' ∈ r4 then
              some ((digitsVal (rest.takeWhile Char.isDigit) : ℚ) +
                (digitsVal (r2.takeWhile Char.isDigit) : ℚ) / 10 ^ (r2.takeWhile Char.isDigit).length)
            else none
          | _ => none
      | _ => none
  | _ => none

/-- One iteration of the extraction loop: `re.search(r'^\[([0-9]+\.[0-9]+)\].*@',
line.strip())`, yielding the bracketed decimal on a match. -/
def parseLine (s : String) : Option ℚ :=
  matchDeltaE (pyStrip s.data)

/-- The extraction loop: start from `delta_e_values = []` and append the
matched value of each line in file order. -/
def parseLines (ls : List String) : List ℚ :=
  ls.foldl (fun acc l =>
    match parseLine l with
    | some v => acc ++ [v]
    | none => acc) []

/-- Parse a whole report text, line by line. -/
def parseReport (text : String) : List ℚ :=
  parseLines (text.splitOn "\n")

/-- `math.ceil(total_patches * p/100)` for percentile `p`. -/
def ceilPos (n p : ℕ) : ℕ :=
  ⌈((n : ℚ) * p) / 100⌉₊

/-- `get_percentile(pos)`: the element at index `total_patches - pos` when
`0 < pos ≤ total_patches`, the `"N/A"` sentinel (here `none`) otherwise. -/
def get_percentile (vals : List ℚ) (pos : ℕ) : Option ℚ :=
  if 0 < pos ∧ pos ≤ vals.length then vals[vals.length - pos]? else none

/-- `sum(1 for v in delta_e_values if v < t)`. -/
def countLt (vals : List ℚ) (t : ℚ) : ℕ :=
  vals.foldl (fun a v => if v < t then a + 1 else a) 0

/-- The statistics computed by `sanity_check` over a non-empty sample. -/
structure DeltaESummary where
  largest : ℚ
  smallest : ℚ
  sample_count : ℕ
  percentile_99 : Option ℚ
  percentile_98 : Option ℚ
  percentile_95 : Option ℚ
  percentile_90 : Option ℚ
  count_lt_1 : ℕ
  count_lt_2 : ℕ
  count_lt_3 : ℕ
  percent_lt_1 : ℚ
  percent_lt_2 : ℚ
  percent_lt_3 : ℚ
  deriving DecidableEq, Repr

/-- Outcome of summarization: a typed empty-sample failure or a summary. -/
inductive SummaryResult
  | emptySample
  | ok (s : DeltaESummary)
  deriving DecidableEq, Repr

/-- The statistics block of `sanity_check`: bail out with the empty-sample
outcome on `if not delta_e_values`, otherwise build every statistic. -/
def summarize (vals : List ℚ) : SummaryResult :=
  if vals.isEmpty then .emptySample
  else
    let n := vals.length
    .ok {
      largest := vals.headD 0
      smallest := vals.getLastD 0
      sample_count := n
      percentile_99 := get_percentile vals (ceilPos n 99)
      percentile_98 := get_percentile vals (ceilPos n 98)
      percentile_95 := get_percentile vals (ceilPos n 95)
      percentile_90 := get_percentile vals (ceilPos n 90)
      count_lt_1 := countLt vals 1
      count_lt_2 := countLt vals 2
      count_lt_3 := countLt vals 3
      percent_lt_1 := (countLt vals 1 : ℚ) / n * 100
      percent_lt_2 := (countLt vals 2 : ℚ) / n * 100
      percent_lt_3 := (countLt vals 3 : ℚ) / n * 100 }

/-- Select the percentile field named by `p ∈ {90, 95, 98, 99}`. -/
def percentileOf (s : DeltaESummary) (p : ℕ) : Option ℚ :=
  if p = 90 then s.percentile_90
  else if p = 95 then s.percentile_95
  else if p = 98 then s.percentile_98
  else s.percentile_99

/-- Select the threshold-count field named by `t ∈ {1, 2, 3}`. -/
def countFieldOf (s : DeltaESummary) (t : ℚ) : ℕ :=
  if t = 1 then s.count_lt_1 else if t = 2 then s.count_lt_2 else s.count_lt_3

/-- Select the threshold-percentage field named by `t ∈ {1, 2, 3}`. -/
def percentFieldOf (s : DeltaESummary) (t : ℚ) : ℚ :=
  if t = 1 then s.percent_lt_1 else if t = 2 then s.percent_lt_2 else s.percent_lt_3

/-- The `p`-th percentile reported for a sample, `none` when the sample is
empty or the sentinel was reported. -/
def summaryPercentile (vals : List ℚ) (p : ℕ) : Option ℚ :=
  match summarize vals with
  | .emptySample => none
  | .ok s => percentileOf s p

/-- The reported largest ΔE (`delta_e_values[0]`). -/
def summaryLargest (vals : List ℚ) : Option ℚ :=
  match summarize vals with
  | .emptySample => none
  | .ok s => some s.largest

/-- The reported smallest ΔE (`delta_e_values[-1]`). -/
def summarySmallest (vals : List ℚ) : Option ℚ :=
  match summarize vals with
  | .emptySample => none
  | .ok s => some s.smallest

/-- The reported count of values below threshold `t`. -/
def summaryCountLt (vals : List ℚ) (t : ℚ) : Option ℕ :=
  match summarize vals with
  | .emptySample => none
  | .ok s => some (countFieldOf s t)

/-- The reported percentage of values below threshold `t` (exact, before
formatting). -/
def summaryPercentLt (vals : List ℚ) (t : ℚ) : Option ℚ :=
  match summarize vals with
  | .emptySample => none
  | .ok s => some (percentFieldOf s t)

/-- Round to the nearest integer, ties to even: the rounding of Python's
`format` on an exactly represented value. -/
def roundHalfEven (x : ℚ) : ℤ :=
  if x - ⌊x⌋ < 1 / 2 then ⌊x⌋
  else if 1 / 2 < x - ⌊x⌋ then ⌊x⌋ + 1
  else if Even ⌊x⌋ then ⌊x⌋ else ⌊x⌋ + 1

/-- The numeric value displayed by the `:.1f` format: `x` rounded to one
decimal place. -/
def fmt1 (x : ℚ) : ℚ :=
  (roundHalfEven (10 * x) : ℚ) / 10

/-- The percentage rendered (to one decimal place) for threshold `t` in the
"Patch Count Analysis" block. -/
def renderPercentLt (vals : List ℚ) (t : ℚ) : Option ℚ :=
  match summarize vals with
  | .emptySample => none
  | .ok s => some (fmt1 (percentFieldOf s t))

/-- The whole analysis pipeline on a report text: parse, then summarize. -/
def analyzeReport (text : String) : SummaryResult :=
  summarize (parseReport text)

/-- Specification-level acceptance predicate for a stripped line: a
bracketed decimal (one or more digits, a literal point, one or more
digits) at the start, with an `@` somewhere after the closing bracket. -/
def acceptedLine (cs : List Char) : Prop :=
  ∃ d1 d2 rest, cs = '[' :: (d1 ++ '.' :: (d2 ++ ']' :: rest)) ∧
    d1 ≠ [] ∧ d2 ≠ [] ∧
    (∀ c ∈ d1, Char.isDigit c) ∧ (∀ c ∈ d2, Char.isDigit c) ∧ '@' ∈ rest

/-- The ceiling position in natural-number arithmetic. -/
theorem ceilPos_eq (n p : ℕ) : ceilPos n p = (n * p + 99) / 100 := by
  unfold ceilPos
  apply le_antisymm
  · rw [Nat.ceil_le, div_le_iff₀ (by norm_num : (0 : ℚ) < 100)]
    have h : n * p ≤ (n * p + 99) / 100 * 100 := by omega
    calc ((n : ℚ) * p) = ((n * p : ℕ) : ℚ) := by push_cast; ring
    _ ≤ (((n * p + 99) / 100 * 100 : ℕ) : ℚ) := by exact_mod_cast h
    _ = (((n * p + 99) / 100 : ℕ) : ℚ) * 100 := by push_cast; ring
  · rcases Nat.eq_zero_or_pos ((n * p + 99) / 100) with h | h
    · omega
    · have hlt : ((n * p + 99) / 100 - 1) * 100 < n * p := by omega
      have := Nat.lt_ceil.mpr (show (((n * p + 99) / 100 - 1 : ℕ) : ℚ) < (n : ℚ) * p / 100 by
        rw [lt_div_iff₀ (by norm_num : (0 : ℚ) < 100)]
        calc (((n * p + 99) / 100 - 1 : ℕ) : ℚ) * 100
            = (((n * p + 99) / 100 - 1) * 100 : ℕ) := by push_cast; ring
        _ < ((n * p : ℕ) : ℚ) := by exact_mod_cast hlt
        _ = (n : ℚ) * p := by push_cast; ring)
      omega

theorem ceilPos_pos (n p : ℕ) (hn : 1 ≤ n) (hp : 1 ≤ p) : 1 ≤ ceilPos n p := by
  rw [ceilPos_eq]
  have : 1 * 1 ≤ n * p := Nat.mul_le_mul hn hp
  omega

theorem ceilPos_le (n p : ℕ) (hp : p ≤ 100) : ceilPos n p ≤ n := by
  rw [ceilPos_eq]
  have : n * p ≤ n * 100 := Nat.mul_le_mul_left n hp
  omega

theorem ceilPos_mono (n : ℕ) {p q : ℕ} (h : p ≤ q) : ceilPos n p ≤ ceilPos n q := by
  rw [ceilPos_eq, ceilPos_eq]
  have : n * p ≤ n * q := Nat.mul_le_mul_left n h
  omega

/-- The extraction loop produces exactly the per-line matches, in file order. -/
theorem parseLines_eq_filterMap (ls : List String) :
    parseLines ls = ls.filterMap parseLine := by
  suffices h : ∀ (ms : List String) (acc : List ℚ),
      List.foldl (fun acc l =>
        match parseLine l with
        | some v => acc ++ [v]
        | none => acc) acc ms = acc ++ ms.filterMap parseLine by
    simpa using h ls []
  intro ms
  induction ms with
  | nil => simp
  | cons l ms ih =>
    intro acc
    cases h : parseLine l with
    | none => simp [h, ih]
    | some v => simp [h, ih]

/-- The threshold-counting fold counts exactly the elements below `t`. -/
theorem countLt_eq_filter (vals : List ℚ) (t : ℚ) :
    countLt vals t = (vals.filter (fun v => decide (v < t))).length := by
  suffices h : ∀ (vs : List ℚ) (a : ℕ),
      List.foldl (fun a v => if v < t then a + 1 else a) a vs
        = a + (vs.filter (fun v => decide (v < t))).length by
    simpa [countLt] using h vals 0
  intro vs
  induction vs with
  | nil => simp
  | cons v vs ih =>
    intro a
    by_cases hv : v < t
    · simp [hv, ih]
      omega
    · simp [hv, ih]

theorem summarize_ne_empty (v : ℚ) (vs : List ℚ) :
    summarize (v :: vs) =
      .ok {
        largest := (v :: vs).headD 0
        smallest := (v :: vs).getLastD 0
        sample_count := (v :: vs).length
        percentile_99 := get_percentile (v :: vs) (ceilPos (v :: vs).length 99)
        percentile_98 := get_percentile (v :: vs) (ceilPos (v :: vs).length 98)
        percentile_95 := get_percentile (v :: vs) (ceilPos (v :: vs).length 95)
        percentile_90 := get_percentile (v :: vs) (ceilPos (v :: vs).length 90)
        count_lt_1 := countLt (v :: vs) 1
        count_lt_2 := countLt (v :: vs) 2
        count_lt_3 := countLt (v :: vs) 3
        percent_lt_1 := (countLt (v :: vs) 1 : ℚ) / (v :: vs).length * 100
        percent_lt_2 := (countLt (v :: vs) 2 : ℚ) / (v :: vs).length * 100
        percent_lt_3 := (countLt (v :: vs) 3 : ℚ) / (v :: vs).length * 100 } := by
  simp [summarize]

/-- The reported `p`-th percentile is `get_percentile` at the ceiling position. -/
theorem summaryPercentile_eq (vals : List ℚ) (hne : vals ≠ []) (p : ℕ)
    (hp : p = 90 ∨ p = 95 ∨ p = 98 ∨ p = 99) :
    summaryPercentile vals p = get_percentile vals (ceilPos vals.length p) := by
  cases vals with
  | nil => exact absurd rfl hne
  | cons v vs =>
    rcases hp with rfl | rfl | rfl | rfl <;>
      simp [summaryPercentile, summarize_ne_empty, percentileOf]

theorem summaryLargest_eq (vals : List ℚ) (hne : vals ≠ []) :
    summaryLargest vals = some (vals.headD 0) := by
  cases vals with
  | nil => exact absurd rfl hne
  | cons v vs => simp [summaryLargest, summarize_ne_empty]

theorem summarySmallest_eq (vals : List ℚ) (hne : vals ≠ []) :
    summarySmallest vals = some (vals.getLastD 0) := by
  cases vals with
  | nil => exact absurd rfl hne
  | cons v vs => simp [summarySmallest, summarize_ne_empty]

theorem summaryCountLt_eq (vals : List ℚ) (hne : vals ≠ []) (t : ℚ)
    (ht : t = 1 ∨ t = 2 ∨ t = 3) :
    summaryCountLt vals t = some (countLt vals t) := by
  cases vals with
  | nil => exact absurd rfl hne
  | cons v vs =>
    rcases ht with rfl | rfl | rfl <;>
      norm_num [summaryCountLt, summarize_ne_empty, countFieldOf]

theorem summaryPercentLt_eq (vals : List ℚ) (hne : vals ≠ []) (t : ℚ)
    (ht : t = 1 ∨ t = 2 ∨ t = 3) :
    summaryPercentLt vals t = some ((countLt vals t : ℚ) / vals.length * 100) := by
  cases vals with
  | nil => exact absurd rfl hne
  | cons v vs =>
    rcases ht with rfl | rfl | rfl <;>
      norm_num [summaryPercentLt, summarize_ne_empty, percentFieldOf]

theorem renderPercentLt_eq (vals : List ℚ) (hne : vals ≠ []) (t : ℚ)
    (ht : t = 1 ∨ t = 2 ∨ t = 3) :
    renderPercentLt vals t = some (fmt1 ((countLt vals t : ℚ) / vals.length * 100)) := by
  cases vals with
  | nil => exact absurd rfl hne
  | cons v vs =>
    rcases ht with rfl | rfl | rfl <;>
      norm_num [renderPercentLt, summarize_ne_empty, percentFieldOf]

/-- Round-half-to-even lands within half a unit of its argument. -/
theorem roundHalfEven_close (x : ℚ) : |(roundHalfEven x : ℚ) - x| ≤ 1 / 2 := by
  unfold roundHalfEven
  have h1 : (⌊x⌋ : ℚ) ≤ x := Int.floor_le x
  have h2 : x < ⌊x⌋ + 1 := Int.lt_floor_add_one x
  split
  · rename_i h
    rw [abs_le]
    constructor <;> linarith
  · split
    · rename_i h h'
      push_cast
      rw [abs_le]
      constructor <;> linarith
    · split <;> rename_i h h' _ <;> push_cast <;> rw [abs_le] <;>
        constructor <;> linarith

/-- Rendering to one decimal place is accurate to half of the last place. -/
theorem fmt1_close (x : ℚ) : |fmt1 x - x| ≤ 1 / 20 := by
  have h := roundHalfEven_close (10 * x)
  unfold fmt1
  rw [abs_le] at h ⊢
  constructor <;> [linarith; linarith]

/-- `takeWhile`/`dropWhile` splits at the first failing element. -/
theorem takeWhile_dropWhile_append {α : Type} (p : α → Bool) (xs : List α) (y : α)
    (ys : List α) (hxs : ∀ x ∈ xs, p x = true) (hy : p y = false) :
    (xs ++ y :: ys).takeWhile p = xs ∧ (xs ++ y :: ys).dropWhile p = y :: ys := by
  induction xs with
  | nil => simp [List.takeWhile_cons, List.dropWhile_cons, hy]
  | cons x xs ih =>
    have hx := hxs x (by simp)
    have h := ih (fun a ha => hxs a (by simp [ha]))
    simp [List.takeWhile_cons, List.dropWhile_cons, hx, h.1, h.2]

/-- The anchored regex matches exactly the lines of the documented shape. -/
theorem matchDeltaE_isSome_iff (cs : List Char) :
    (matchDeltaE cs).isSome = true ↔ acceptedLine cs := by
  constructor
  · intro h
    unfold matchDeltaE at h
    split at h
    · rename_i rest
      split at h
      · simp at h
      · rename_i hd1
        split at h
        · rename_i r2 hdrop1
          split at h
          · simp at h
          · rename_i hd2
            split at h
            · rename_i r4 hdrop2
              split at h
              · rename_i hat
                refine ⟨rest.takeWhile Char.isDigit, r2.takeWhile Char.isDigit, r4,
                  ?_, hd1, hd2, ?_, ?_, hat⟩
                · have e1 := List.takeWhile_append_dropWhile Char.isDigit rest
                  have e2 := List.takeWhile_append_dropWhile Char.isDigit r2
                  rw [hdrop1] at e1
                  rw [hdrop2] at e2
                  rw [e2, e1]
                · intro c hc
                  exact List.mem_takeWhile_imp hc
                · intro c hc
                  exact List.mem_takeWhile_imp hc
              · simp at h
            · simp at h
        · simp at h
    · simp at h
  · rintro ⟨d1, d2, rest, rfl, hd1, hd2, hdig1, hdig2, hat⟩
    have hdig1b : ∀ x ∈ d1, Char.isDigit x = true := fun x hx => hdig1 x hx
    have hdig2b : ∀ x ∈ d2, Char.isDigit x = true := fun x hx => hdig2 x hx
    have h1 := takeWhile_dropWhile_append Char.isDigit d1 '.' (d2 ++ ']' :: rest) hdig1b (by decide)
    have h2 := takeWhile_dropWhile_append Char.isDigit d2 ']' rest hdig2b (by decide)
    simp only [matchDeltaE, h1.1, h1.2, h2.1, h2.2, hd1, hd2, hat, if_false, if_true,
      Option.isSome_some, if_neg hd1, if_neg hd2, if_pos hat]

/-- In a descending list, a later element is at most an earlier one. -/
theorem sorted_ge_getElem_le (l : List ℚ) (hs : l.Sorted (· ≥ ·)) (i j : ℕ)
    (hi : i < l.length) (hj : j < l.length) (hij : i ≤ j) : l[j] ≤ l[i] := by
  rcases Nat.eq_or_lt_of_le hij with rfl | hlt
  · exact le_refl _
  · exact hs.rel_get_of_lt (a := ⟨i, hi⟩) (b := ⟨j, hj⟩) hlt

/-- C1: for every non-empty descending sample of length n and each
percentile p in \x7b90, 95, 98, 99\x7d, the summarizer computes
position = ⌈n·p/100⌉ and reports the element at 0-based index
n − position; when the position is 0 or exceeds n it reports the
sentinel (`none`, standing for "N/A") instead of failing. -/
theorem percentile_rank_formula (vals : List ℚ) (hne : vals ≠ [])
    (_hsort : vals.Sorted (· ≥ ·)) (p : ℕ)
    (hp : p = 90 ∨ p = 95 ∨ p = 98 ∨ p = 99) :
    summaryPercentile vals p =
      if 0 < ceilPos vals.length p ∧ ceilPos vals.length p ≤ vals.length
      then vals[vals.length - ceilPos vals.length p]?
      else none := by
  rw [summaryPercentile_eq vals hne p hp]
  rfl

/-- Witness for C1 at the sample [5, 3, 1] and p = 90. -/
theorem percentile_rank_formula_witness :
    summaryPercentile [(5 : ℚ), 3, 1] 90 =
      if 0 < ceilPos ([(5 : ℚ), 3, 1] : List ℚ).length 90 ∧
          ceilPos ([(5 : ℚ), 3, 1] : List ℚ).length 90 ≤ ([(5 : ℚ), 3, 1] : List ℚ).length
      then ([(5 : ℚ), 3, 1] : List ℚ)[([(5 : ℚ), 3, 1] : List ℚ).length -
        ceilPos ([(5 : ℚ), 3, 1] : List ℚ).length 90]?
      else none :=
  percentile_rank_formula [(5 : ℚ), 3, 1] (by decide) (by decide) 90 (by decide)

/-- C2 counterexample: on the descending sample [10, 9, …, 1] the code
reports 9 at the 90th percentile and 10 at the 95th, so for p1 = 90 < 95 = p2
the value at p1 is NOT ≥ the value at p2. -/
theorem percentile_monotone_counterexample :
    ([(10 : ℚ), 9, 8, 7, 6, 5, 4, 3, 2, 1] : List ℚ).Sorted (· ≥ ·) ∧
    summaryPercentile [(10 : ℚ), 9, 8, 7, 6, 5, 4, 3, 2, 1] 90 = some 9 ∧
    summaryPercentile [(10 : ℚ), 9, 8, 7, 6, 5, 4, 3, 2, 1] 95 = some 10 ∧
    ¬ ((9 : ℚ) ≥ 10) := by
  refine ⟨by decide, ?_, ?_, by decide⟩ <;> with_unfolding_all decide

/-- C2 (amended): for every descending sample and percentiles
p1 < p2 drawn from \x7b90, 95, 98, 99\x7d, the value reported at p1 is less
than or equal to (not greater than or equal to) the value reported at p2. -/
theorem percentile_monotone_amended (vals : List ℚ) (hsort : vals.Sorted (· ≥ ·))
    (p1 p2 : ℕ) (hp1 : p1 = 90 ∨ p1 = 95 ∨ p1 = 98 ∨ p1 = 99)
    (hp2 : p2 = 90 ∨ p2 = 95 ∨ p2 = 98 ∨ p2 = 99) (hlt : p1 < p2)
    (v1 v2 : ℚ) (h1 : summaryPercentile vals p1 = some v1)
    (h2 : summaryPercentile vals p2 = some v2) : v1 ≤ v2 := by
  have hne : vals ≠ [] := by
    intro hv
    rw [hv] at h1
    simp [summaryPercentile, summarize] at h1
  rw [summaryPercentile_eq vals hne p1 hp1] at h1
  rw [summaryPercentile_eq vals hne p2 hp2] at h2
  unfold get_percentile at h1 h2
  split at h1
  · split at h2
    · obtain ⟨hi1, he1⟩ := List.getElem?_eq_some_iff.mp h1
      obtain ⟨hi2, he2⟩ := List.getElem?_eq_some_iff.mp h2
      have hq : ceilPos vals.length p1 ≤ ceilPos vals.length p2 :=
        ceilPos_mono _ hlt.le
      have hij : vals.length - ceilPos vals.length p2 ≤
          vals.length - ceilPos vals.length p1 := by omega
      rw [← he1, ← he2]
      exact sorted_ge_getElem_le vals hsort _ _ hi2 hi1 hij
    · exact absurd h2 (by simp)
  · exact absurd h1 (by simp)

/-- Witness for the amended C2 at the sample [10, …, 1], p1 = 90, p2 = 95. -/
theorem percentile_monotone_amended_witness : (9 : ℚ) ≤ 10 :=
  percentile_monotone_amended [(10 : ℚ), 9, 8, 7, 6, 5, 4, 3, 2, 1] (by decide)
    90 95 (by decide) (by decide) (by decide) 9 10
    (by with_unfolding_all decide) (by with_unfolding_all decide)

/-- C9: for a non-empty sample of length n ≥ 1 and every
p ∈ \x7b90, 95, 98, 99\x7d, the computed position satisfies
1 ≤ position ≤ n, so the "N/A" branch is unreachable and each reported
percentile is an actual element of the sample. -/
theorem percentile_position_in_range (vals : List ℚ) (hne : vals ≠ [])
    (p : ℕ) (hp : p = 90 ∨ p = 95 ∨ p = 98 ∨ p = 99) :
    1 ≤ ceilPos vals.length p ∧ ceilPos vals.length p ≤ vals.length ∧
      ∃ v ∈ vals, summaryPercentile vals p = some v := by
  have hn : 1 ≤ vals.length := List.length_pos.mpr hne
  have h1 : 1 ≤ ceilPos vals.length p :=
    ceilPos_pos _ _ hn (by rcases hp with rfl | rfl | rfl | rfl <;> omega)
  have h2 : ceilPos vals.length p ≤ vals.length :=
    ceilPos_le _ _ (by rcases hp with rfl | rfl | rfl | rfl <;> omega)
  refine ⟨h1, h2, ?_⟩
  rw [summaryPercentile_eq vals hne p hp]
  unfold get_percentile
  rw [if_pos ⟨h1, h2⟩]
  have hidx : vals.length - ceilPos vals.length p < vals.length := by omega
  exact ⟨vals[vals.length - ceilPos vals.length p],
    List.getElem?_mem (List.getElem?_eq_getElem hidx),
    List.getElem?_eq_getElem hidx⟩

/-- Witness for C9 at the sample [5, 3, 1] and p = 99. -/
theorem percentile_position_in_range_witness :
    1 ≤ ceilPos ([(5 : ℚ), 3, 1] : List ℚ).length 99 ∧
      ceilPos ([(5 : ℚ), 3, 1] : List ℚ).length 99 ≤ ([(5 : ℚ), 3, 1] : List ℚ).length ∧
      ∃ v ∈ ([(5 : ℚ), 3, 1] : List ℚ), summaryPercentile [(5 : ℚ), 3, 1] 99 = some v :=
  percentile_position_in_range [(5 : ℚ), 3, 1] (by decide) 99 (by decide)

/-- C3: the parser appends exactly the bracketed decimals of matching
lines, in file order without re-sorting; non-matching lines are skipped
without error, and an input with no matching lines yields the empty
sample rather than an error. -/
theorem parse_filter_order (ls : List String) :
    parseLines ls = ls.filterMap parseLine ∧
      (parseLines ls = [] ↔ ∀ l ∈ ls, parseLine l = none) := by
  refine ⟨parseLines_eq_filterMap ls, ?_⟩
  rw [parseLines_eq_filterMap ls]
  exact List.filterMap_eq_nil_iff

/-- C4: summarizing the empty sample yields the typed EmptySample outcome
(and only then), and no statistic of the empty sample is produced. -/
theorem empty_sample_outcome (vals : List ℚ) :
    (summarize vals = .emptySample ↔ vals = []) ∧
      (∀ p, summaryPercentile [] p = none) ∧
      summaryLargest ([] : List ℚ) = none ∧
      summarySmallest ([] : List ℚ) = none ∧
      (∀ t, summaryCountLt [] t = none) ∧
      (∀ t, summaryPercentLt [] t = none) ∧
      (∀ t, renderPercentLt [] t = none) := by
  refine ⟨⟨?_, ?_⟩, fun p => rfl, rfl, rfl, fun t => rfl, fun t => rfl, fun t => rfl⟩
  · intro h
    cases vals with
    | nil => rfl
    | cons v vs => rw [summarize_ne_empty] at h; exact absurd h (by simp)
  · rintro rfl
    rfl

/-- C5: for every non-empty sample and threshold t ∈ \x7b1, 2, 3\x7d, the
reported statistic is the count of elements strictly below t, together
with the percentage 100·count/n, rendered to one decimal place (the
rendered value is within 1/20 of the exact percentage). -/
theorem threshold_stats (vals : List ℚ) (t : ℚ) (hne : vals ≠ [])
    (ht : t = 1 ∨ t = 2 ∨ t = 3) :
    summaryCountLt vals t = some ((vals.filter (fun v => decide (v < t))).length) ∧
    summaryPercentLt vals t =
      some (100 * ((vals.filter (fun v => decide (v < t))).length : ℚ) / vals.length) ∧
    renderPercentLt vals t =
      some (fmt1 (100 * ((vals.filter (fun v => decide (v < t))).length : ℚ) / vals.length)) ∧
    (∀ x : ℚ, |fmt1 x - x| ≤ 1 / 20) := by
  have hc := countLt_eq_filter vals t
  have hpct : (countLt vals t : ℚ) / vals.length * 100 =
      100 * ((vals.filter (fun v => decide (v < t))).length : ℚ) / vals.length := by
    rw [hc]
    ring
  refine ⟨?_, ?_, ?_, fun x => fmt1_close x⟩
  · rw [summaryCountLt_eq vals hne t ht, hc]
  · rw [summaryPercentLt_eq vals hne t ht, hpct]
  · rw [renderPercentLt_eq vals hne t ht, hpct]

/-- Witness for C5 at the sample [5, 3, 1] and t = 1. -/
theorem threshold_stats_witness :
    summaryCountLt [(5 : ℚ), 3, 1] 1 =
      some ((([(5 : ℚ), 3, 1] : List ℚ).filter (fun v => decide (v < 1))).length) ∧
    summaryPercentLt [(5 : ℚ), 3, 1] 1 =
      some (100 * ((([(5 : ℚ), 3, 1] : List ℚ).filter (fun v => decide (v < 1))).length : ℚ) /
        ([(5 : ℚ), 3, 1] : List ℚ).length) ∧
    renderPercentLt [(5 : ℚ), 3, 1] 1 =
      some (fmt1 (100 * ((([(5 : ℚ), 3, 1] : List ℚ).filter (fun v => decide (v < 1))).length : ℚ) /
        ([(5 : ℚ), 3, 1] : List ℚ).length)) ∧
    (∀ x : ℚ, |fmt1 x - x| ≤ 1 / 20) :=
  threshold_stats [(5 : ℚ), 3, 1] 1 (by decide) (by decide)

/-- C6: for every non-empty descending sample, the reported largest value
is the first element and the reported smallest value is the last. -/
theorem largest_smallest_fields (vals : List ℚ) (hne : vals ≠ [])
    (_hsort : vals.Sorted (· ≥ ·)) :
    summaryLargest vals = vals.head? ∧ summarySmallest vals = vals.getLast? := by
  constructor
  · rw [summaryLargest_eq vals hne]
    cases vals with
    | nil => exact absurd rfl hne
    | cons v vs => rfl
  · rw [summarySmallest_eq vals hne]
    rw [List.getLastD_eq_getLast?, List.getLast?_eq_getLast vals hne]
    rfl

/-- Witness for C6 at the sample [5, 3, 1]. -/
theorem largest_smallest_fields_witness :
    summaryLargest [(5 : ℚ), 3, 1] = ([(5 : ℚ), 3, 1] : List ℚ).head? ∧
      summarySmallest [(5 : ℚ), 3, 1] = ([(5 : ℚ), 3, 1] : List ℚ).getLast? :=
  largest_smallest_fields [(5 : ℚ), 3, 1] (by decide) (by decide)

/-- C7: the concrete three-line example: the parser yields
[5.20, 3.10, 0.50]; largest 5.20, smallest 0.50; the 90th-percentile
position is ⌈0.9·3⌉ = 3, giving index 0 and value 5.20; the percentage
below 1.0 is 100/3, rendered 33.3. -/
theorem concrete_example_run :
    parseLines ["[5.20] patch A1 @ x", "[3.10] patch A2 @ x", "[0.50] patch A3 @ x"]
      = [26 / 5, 31 / 10, 1 / 2] ∧
    summaryLargest [(26 : ℚ) / 5, 31 / 10, 1 / 2] = some (26 / 5) ∧
    summarySmallest [(26 : ℚ) / 5, 31 / 10, 1 / 2] = some (1 / 2) ∧
    ceilPos 3 90 = 3 ∧ 3 - ceilPos 3 90 = 0 ∧
    summaryPercentile [(26 : ℚ) / 5, 31 / 10, 1 / 2] 90 = some (26 / 5) ∧
    summaryPercentLt [(26 : ℚ) / 5, 31 / 10, 1 / 2] 1 = some (100 / 3) ∧
    renderPercentLt [(26 : ℚ) / 5, 31 / 10, 1 / 2] 1 = some (333 / 10) := by
  refine ⟨?_, ?_, ?_, ?_, ?_, ?_, ?_, ?_⟩ <;> with_unfolding_all decide

/-- C8: the analysis is deterministic: running parse-then-summarize twice
on the same report text produces identical summaries, field by field. -/
theorem analysis_deterministic (text : String) :
    analyzeReport text = analyzeReport text ∧
      (∀ p, summaryPercentile (parseReport text) p = summaryPercentile (parseReport text) p) ∧
      summaryLargest (parseReport text) = summaryLargest (parseReport text) ∧
      summarySmallest (parseReport text) = summarySmallest (parseReport text) ∧
      (∀ t, summaryCountLt (parseReport text) t = summaryCountLt (parseReport text) t) ∧
      (∀ t, summaryPercentLt (parseReport text) t = summaryPercentLt (parseReport text) t) :=
  ⟨rfl, fun _ => rfl, rfl, rfl, fun _ => rfl, fun _ => rfl⟩

/-- C10: the parser accepts exactly the lines whose stripped text starts
with a bracketed digits-point-digits number followed (after the bracket)
by an `@`; in particular an integer-only bracket `[5] patch @ x` and a
line whose `@` precedes the bracket contribute no value. -/
theorem line_pattern_characterization :
    (∀ s : String, (parseLine s).isSome = true ↔ acceptedLine (pyStrip s.data)) ∧
    parseLine "[5] patch @ x" = none ∧
    parseLine "@ [5.20] patch A1 x" = none := by
  refine ⟨fun s => matchDeltaE_isSome_iff (pyStrip s.data), ?_, ?_⟩ <;>
    with_unfolding_all decide

end ArgyllProfiler
